import Mathlib

/-!
Verification of the shape-inference and validation logic of
`prettytensor/pretty_tensor_methods.py`.

The central routine is `_infer_unknown_dims(old_shape, shape_spec)`, which
resolves a target shape specification against the current shape of a tensor.
A shape-spec entry is one of:
  * `DIM_SAME` (the string `'_'`): copy the corresponding input dimension;
  * `DIM_REST` (the string `'*'`), the integer `-1`, or `None`: a wildcard
    to be inferred from the remaining size;
  * any other value convertible with `int(...)`: an explicit dimension.
An input-shape dimension is either a known nonnegative integer or unknown
(`None` in Python); we model it as `Option Nat`.

The embedding below mirrors the Python source statement by statement:
the loop carries the mutable state (`numerator_elements`, `denominator`,
`unknowns`, `result`), and the distinct Python exceptions are distinct
constructors of `InferErr` (a `ZeroDivisionError`, raised by
`numerator % denominator` when an explicit spec entry is 0, is *not* a
`ValueError` in Python and is kept separate).
-/

/-- A shape-spec entry as a Python value reaching `_infer_unknown_dims`:
`same` is the string `DIM_SAME` (`'_'`), `rest` is the string `DIM_REST`
(`'*'`), `intE n` is the integer `n`, and `noneE` is Python `None`. -/
inductive SpecEntry where
  | same
  | rest
  | intE (n : Int)
  | noneE
deriving DecidableEq, Repr

/-- An element of the list built in `result`: either the string `DIM_SAME`
(appended when the copied input dimension is unknown) or an integer. -/
inductive ResElem where
  | same
  | num (n : Int)
deriving DecidableEq, Repr

/-- The exceptions `_infer_unknown_dims` can raise.  The first three are
`ValueError`s; `zeroDivision` models Python's `ZeroDivisionError` from
`numerator % denominator` when the denominator is 0. -/
inductive InferErr where
  | outOfRange (i : Nat)
  | tooManyUnknowns
  | sizeMismatch
  | zeroDivision
deriving DecidableEq, Repr

/-- Whether an `InferErr` corresponds to a Python `ValueError`. -/
def InferErr.isValueError : InferErr → Bool
  | .zeroDivision => false
  | _ => true

/-- The mutable state of the loop in `_infer_unknown_dims`. -/
structure InferState where
  numeratorElements : List Int
  denominator : Int
  unknowns : Nat
  result : List ResElem
deriving DecidableEq, Repr

/-- One iteration of the loop `for i, s in enumerate(shape_spec)` in
`_infer_unknown_dims`; `i` is the loop index. -/
def inferStep (oldShape : List (Option Nat)) (i : Nat) (s : SpecEntry)
    (st : InferState) : Except InferErr InferState :=
  match s with
  | .same =>
      if h : i < oldShape.length then
        match oldShape.get ⟨i, h⟩ with
        | none =>
            .ok { st with result := st.result ++ [.same],
                          numeratorElements := st.numeratorElements.set i 1 }
        | some d =>
            .ok { st with result := st.result ++ [.num d],
                          numeratorElements := st.numeratorElements.set i 1 }
      else
        .error (.outOfRange i)
  | .rest =>
      .ok { st with result := st.result ++ [.num (-1)],
                    unknowns := st.unknowns + 1 }
  | .noneE =>
      .ok { st with result := st.result ++ [.num (-1)],
                    unknowns := st.unknowns + 1 }
  | .intE n =>
      if n = -1 then
        .ok { st with result := st.result ++ [.num (-1)],
                      unknowns := st.unknowns + 1 }
      else
        .ok { st with result := st.result ++ [.num n],
                      denominator := st.denominator * n }

/-- The whole loop of `_infer_unknown_dims`, starting at index `i`. -/
def inferLoop (oldShape : List (Option Nat)) :
    Nat → List SpecEntry → InferState → Except InferErr InferState
  | _, [], st => .ok st
  | i, s :: rest, st =>
      match inferStep oldShape i s st with
      | .error e => .error e
      | .ok st' => inferLoop oldShape (i + 1) rest st'

/-- The initialisation `numerator_elements = [x if x else 0 for x in old_shape]`:
an unknown dimension (and a 0 dimension, also falsy in Python) contributes 0. -/
def initNumeratorElements (oldShape : List (Option Nat)) : List Int :=
  oldShape.map (fun x => match x with | none => 0 | some d => (d : Int))

/-- The state before the loop: `numerator_elements` initialised from
`old_shape`, `denominator = 1`, `unknowns = 0`, `result = []`. -/
def initState (oldShape : List (Option Nat)) : InferState :=
  { numeratorElements := initNumeratorElements oldShape
    denominator := 1
    unknowns := 0
    result := [] }

/-- The straight-line code of `_infer_unknown_dims` after the loop:
`numerator` is the product of `numerator_elements`, followed by the
validation chain and (when possible) the substitution of the wildcard. -/
def inferFinish (st : InferState) : Except InferErr (List ResElem) :=
  let numerator := st.numeratorElements.foldl (· * ·) 1
  if st.unknowns > 1 then
    .error .tooManyUnknowns
  else if st.denominator = 0 then
    .error .zeroDivision
  else if numerator % st.denominator ≠ 0 then
    .error .sizeMismatch
  else if st.unknowns = 0 ∧ numerator > 0 ∧ numerator ≠ st.denominator then
    .error .sizeMismatch
  else if numerator ≠ 0 ∧ st.unknowns ≠ 0 then
    .ok (st.result.map
      (fun x => if x = .num (-1) then .num (numerator / st.denominator) else x))
  else
    .ok st.result

/-- The function `_infer_unknown_dims(old_shape, shape_spec)` of
`prettytensor/pretty_tensor_methods.py`. -/
def _infer_unknown_dims (oldShape : List (Option Nat)) (shapeSpec : List SpecEntry) :
    Except InferErr (List ResElem) :=
  match inferLoop oldShape 0 shapeSpec (initState oldShape) with
  | .error e => .error e
  | .ok st => inferFinish st

/-- The final shape recorded by `reshape` via `result.set_shape(new_shape)`:
each `DIM_SAME` left in the inferred list becomes `None`, each `-1` becomes
`None`, and every other entry is kept. -/
def reshapeNewShape (oldShape : List (Option Nat)) (shapeSpec : List SpecEntry) :
    Except InferErr (List (Option Int)) :=
  match _infer_unknown_dims oldShape shapeSpec with
  | .error e => .error e
  | .ok res =>
      .ok (res.map (fun x =>
        match x with
        | .same => none
        | .num n => if n = -1 then none else some n))

/-- Whether a spec entry is treated as a wildcard by `_infer_unknown_dims`,
i.e. satisfies the Python test `s in (DIM_REST, -1, None)`. -/
def isWildcard : SpecEntry → Bool
  | .rest => true
  | .noneE => true
  | .intE n => n = -1
  | .same => false

/-- The number of wildcard entries of a shape spec. -/
def wildcardCount : List SpecEntry → Nat
  | [] => 0
  | s :: rest => (if isWildcard s then 1 else 0) + wildcardCount rest

/-- The final value of `denominator`: the product of the explicit integer
entries of the shape spec. -/
def denomOf : List SpecEntry → Int
  | [] => 1
  | s :: rest =>
      (match s with
       | .intE n => if n = -1 then 1 else n
       | _ => 1) * denomOf rest

/-- The cumulative effect of the assignments `numerator_elements[i] = 1`
made by the loop, starting at index `i`. -/
def applySames : Nat → List SpecEntry → List Int → List Int
  | _, [], ne => ne
  | i, s :: rest, ne =>
      applySames (i + 1) rest (if s = SpecEntry.same then ne.set i 1 else ne)

/-- The final value of `numerator`: the product of the input dimensions,
with 1 at each position copied by a `DIM_SAME` entry and 0 at each unknown
(or 0) position that is not copied. -/
def numeratorOf (oldShape : List (Option Nat)) (spec : List SpecEntry) : Int :=
  (applySames 0 spec (initNumeratorElements oldShape)).prod

/-- The element appended to `result` for the spec entry `s` at loop index
`j` (meaningful whenever the loop does not raise at or before `j`). -/
def resultEntry (oldShape : List (Option Nat)) (j : Nat) : SpecEntry → ResElem
  | .same =>
      match oldShape.get? j with
      | some (some d) => .num d
      | _ => .same
  | .rest => .num (-1)
  | .noneE => .num (-1)
  | .intE n => if n = -1 then .num (-1) else .num n

/-- The final value of `result` built by the loop, starting at index `i`
(an out-of-range `DIM_SAME` contributes nothing here; in that case the
loop raises and the value is unused). -/
def resultOf (oldShape : List (Option Nat)) : Nat → List SpecEntry → List ResElem
  | _, [] => []
  | i, s :: rest =>
      (match s with
       | .same =>
           match oldShape.get? i with
           | some d? =>
               match d? with
               | some d => [ResElem.num d]
               | none => [ResElem.same]
           | none => []
       | .rest => [ResElem.num (-1)]
       | .noneE => [ResElem.num (-1)]
       | .intE n => if n = -1 then [ResElem.num (-1)] else [ResElem.num n])
      ++ resultOf oldShape (i + 1) rest

/-- The product of the resolved dimensions of a returned list; an
unresolved `DIM_SAME` entry is skipped. -/
def resProd : List ResElem → Int
  | [] => 1
  | .same :: rest => resProd rest
  | .num n :: rest => n * resProd rest

/-- The product, over the `DIM_SAME` entries of the spec starting at index
`i`, of the entries of `ne` at the copied positions (1 when out of range). -/
def samesProd (ne : List Int) : Nat → List SpecEntry → Int
  | _, [] => 1
  | i, s :: rest =>
      (if s = SpecEntry.same then ne.getD i 1 else 1) * samesProd ne (i + 1) rest

/-- The exceptions `_check_split_dims` can raise: the first two are
`ValueError`s, `unknownDimType` models the `TypeError` from `None %
num_splits` when the split dimension is unknown, and `zeroDivision` the
`ZeroDivisionError` when `num_splits` is 0. -/
inductive SplitErr where
  | splitDimOutOfBounds
  | notEvenlyDivisible
  | unknownDimType
  | zeroDivision
deriving DecidableEq, Repr

/-- Whether a `SplitErr` corresponds to a Python `ValueError`. -/
def SplitErr.isValueError : SplitErr → Bool
  | .splitDimOutOfBounds => true
  | .notEvenlyDivisible => true
  | _ => false

/-- The function `_check_split_dims(num_splits, split_dim, shape)` of
`prettytensor/pretty_tensor_methods.py`. -/
def _check_split_dims (numSplits splitDim : Nat) (shape : List (Option Nat)) :
    Except SplitErr Unit :=
  if shape.length ≤ splitDim then
    .error .splitDimOutOfBounds
  else
    match shape.get? splitDim with
    | none => .error .splitDimOutOfBounds
    | some none => .error .unknownDimType
    | some (some d) =>
        if numSplits = 0 then .error .zeroDivision
        else if d % numSplits ≠ 0 then .error .notEvenlyDivisible
        else .ok ()

/-- The validation performed by `split`: it reads `input_layer.shape` and
calls `_check_split_dims(num_splits, split_dim, shape)` before delegating
to the external `tf.split`. -/
def splitValidate (shape : List (Option Nat)) (splitDim numSplits : Nat) :
    Except SplitErr Unit :=
  _check_split_dims numSplits splitDim shape

/-- The validation performed by `unzip`: it reads `input_layer.shape` and
calls `_check_split_dims(num_splits, split_dim, shape)` before delegating
to the external `functions.unzip`. -/
def unzipValidate (shape : List (Option Nat)) (splitDim numSplits : Nat) :
    Except SplitErr Unit :=
  _check_split_dims numSplits splitDim shape

/-- The phases of `pretty_tensor_class.Phase`. -/
inductive Phase where
  | train
  | test
  | infer
deriving DecidableEq, Repr

/-- The registered method `dropout(input_layer, keep_prob, phase)`: in the
train phase it delegates to the external `tf.nn.dropout` (abstracted here
as the parameter `tfDropout`), otherwise it returns the input layer. -/
def dropout {Layer : Type} (tfDropout : Layer → Rat → Layer)
    (inputLayer : Layer) (keepProb : Rat) (phase : Phase) : Layer :=
  if phase = Phase.train then tfDropout inputLayer keepProb else inputLayer

/-! ### Lemmas about the loop of `_infer_unknown_dims` -/

/-- The only exception raised inside the loop is the out-of-range
`DIM_SAME` one. -/
theorem inferStep_error (oldShape : List (Option Nat)) (i : Nat) (s : SpecEntry)
    (st : InferState) (e : InferErr) (h : inferStep oldShape i s st = .error e) :
    e = .outOfRange i := by
  cases s with
  | same =>
      rw [inferStep] at h
      split at h
      · split at h <;> cases h
      · cases h; rfl
  | rest => cases h
  | noneE => cases h
  | intE n =>
      rw [inferStep] at h
      split at h <;> cases h

/-- If the whole loop raises, the exception is an out-of-range one. -/
theorem inferLoop_error_shape (oldShape : List (Option Nat)) (spec : List SpecEntry) :
    ∀ i st e, inferLoop oldShape i spec st = .error e →
      ∃ j, e = InferErr.outOfRange j := by
  induction spec with
  | nil => intro i st e h; cases h
  | cons s rest ih =>
      intro i st e h
      simp only [inferLoop] at h
      cases hs : inferStep oldShape i s st with
      | error e' =>
          rw [hs] at h
          cases h
          exact ⟨i, inferStep_error oldShape i s st _ hs⟩
      | ok st1 =>
          rw [hs] at h
          exact ih (i + 1) st1 e h

/-- Characterisation of a successful run of the loop: the final state is
the initial one with the denominator multiplied by the explicit entries,
the wildcard count added to `unknowns`, the per-entry results appended,
and the copied positions of `numerator_elements` set to 1. -/
theorem inferLoop_ok_char (oldShape : List (Option Nat)) (spec : List SpecEntry) :
    ∀ i st st', inferLoop oldShape i spec st = .ok st' →
      st'.denominator = st.denominator * denomOf spec ∧
      st'.unknowns = st.unknowns + wildcardCount spec ∧
      st'.result = st.result ++ resultOf oldShape i spec ∧
      st'.numeratorElements = applySames i spec st.numeratorElements := by
  induction spec with
  | nil =>
      intro i st st' h
      cases h
      simp [denomOf, wildcardCount, resultOf, applySames]
  | cons s rest ih =>
      intro i st st' h
      simp only [inferLoop] at h
      cases hs : inferStep oldShape i s st with
      | error e => rw [hs] at h; cases h
      | ok st1 =>
          rw [hs] at h
          obtain ⟨hd, hu, hr, hn⟩ := ih (i + 1) st1 st' h
          cases s with
          | same =>
              rw [inferStep] at hs
              split at hs
              case isTrue hlt =>
                rw [List.get_eq_getElem] at hs
                have hget : oldShape[i]? = some (oldShape[i]) :=
                  List.getElem?_eq_getElem hlt
                cases hg : oldShape[i] with
                | none =>
                    rw [hg] at hs hget
                    cases hs
                    refine ⟨?_, ?_, ?_, ?_⟩
                    · rw [hd]; simp [denomOf]
                    · rw [hu]; simp [wildcardCount, isWildcard]
                    · rw [hr]; simp [resultOf, hget]
                    · rw [hn]; simp [applySames]
                | some d =>
                    rw [hg] at hs hget
                    cases hs
                    refine ⟨?_, ?_, ?_, ?_⟩
                    · rw [hd]; simp [denomOf]
                    · rw [hu]; simp [wildcardCount, isWildcard]
                    · rw [hr]; simp [resultOf, hget]
                    · rw [hn]; simp [applySames]
              case isFalse hge => cases hs
          | rest =>
              cases hs
              refine ⟨?_, ?_, ?_, ?_⟩
              · rw [hd]; simp [denomOf]
              · rw [hu]; simp [wildcardCount, isWildcard]; omega
              · rw [hr]; simp [resultOf]
              · rw [hn]; simp [applySames]
          | noneE =>
              cases hs
              refine ⟨?_, ?_, ?_, ?_⟩
              · rw [hd]; simp [denomOf]
              · rw [hu]; simp [wildcardCount, isWildcard]; omega
              · rw [hr]; simp [resultOf]
              · rw [hn]; simp [applySames]
          | intE n =>
              rw [inferStep] at hs
              split at hs
              case isTrue hn1 =>
                cases hs
                refine ⟨?_, ?_, ?_, ?_⟩
                · rw [hd]; simp [denomOf, hn1]
                · rw [hu]; simp [wildcardCount, isWildcard, hn1]; omega
                · rw [hr]; simp [resultOf, hn1]
                · rw [hn]; simp [applySames]
              case isFalse hn1 =>
                cases hs
                refine ⟨?_, ?_, ?_, ?_⟩
                · rw [hd]; simp [denomOf, hn1, mul_assoc]
                · rw [hu]; simp [wildcardCount, isWildcard, hn1]
                · rw [hr]; simp [resultOf, hn1]
                · rw [hn]; simp [applySames]

/-- Unfolding of `_infer_unknown_dims` when the loop succeeds. -/
theorem infer_eq_finish (oldShape : List (Option Nat)) (spec : List SpecEntry)
    (st : InferState) (hl : inferLoop oldShape 0 spec (initState oldShape) = .ok st) :
    _infer_unknown_dims oldShape spec = inferFinish st := by
  unfold _infer_unknown_dims
  rw [hl]

/-- Unfolding of `_infer_unknown_dims` when the loop raises. -/
theorem infer_eq_error (oldShape : List (Option Nat)) (spec : List SpecEntry)
    (e : InferErr) (hl : inferLoop oldShape 0 spec (initState oldShape) = .error e) :
    _infer_unknown_dims oldShape spec = .error e := by
  unfold _infer_unknown_dims
  rw [hl]

/-- A successful run of the loop implies that every `DIM_SAME` entry of the
spec points inside the input shape. -/
theorem inferLoop_ok_inbounds (oldShape : List (Option Nat)) (spec : List SpecEntry) :
    ∀ i st st', inferLoop oldShape i spec st = .ok st' →
      ∀ k, spec.get? k = some SpecEntry.same → i + k < oldShape.length := by
  induction spec with
  | nil => intro i st st' h k hk; cases hk
  | cons s rest ih =>
      intro i st st' h k hk
      simp only [inferLoop] at h
      cases hs : inferStep oldShape i s st with
      | error e => rw [hs] at h; cases h
      | ok st1 =>
          rw [hs] at h
          cases k with
          | zero =>
              simp only [List.get?_cons_zero, Option.some.injEq] at hk
              subst hk
              rw [inferStep] at hs
              split at hs
              case isTrue hlt => simpa using hlt
              case isFalse => cases hs
          | succ k' =>
              simp only [List.get?_cons_succ] at hk
              have := ih (i + 1) st1 st' h k' hk
              omega

/-- An out-of-range `DIM_SAME` entry makes the loop raise. -/
theorem inferLoop_error_of_oob (oldShape : List (Option Nat)) (spec : List SpecEntry) :
    ∀ i k st, spec.get? k = some SpecEntry.same → oldShape.length ≤ i + k →
      ∃ e, inferLoop oldShape i spec st = .error e := by
  induction spec with
  | nil => intro i k st hk; cases hk
  | cons s rest ih =>
      intro i k st hk hlen
      simp only [inferLoop]
      cases hs : inferStep oldShape i s st with
      | error e => exact ⟨e, rfl⟩
      | ok st1 =>
          cases k with
          | zero =>
              simp only [List.get?_cons_zero, Option.some.injEq] at hk
              subst hk
              rw [inferStep] at hs
              split at hs
              case isTrue hlt => exact absurd hlt (by omega)
              case isFalse => cases hs
          | succ k' =>
              simp only [List.get?_cons_succ] at hk
              exact ih (i + 1) k' st1 hk (by omega)

/-- A spec whose entries are all non-wildcards has wildcard count 0. -/
theorem wildcardCount_eq_zero (spec : List SpecEntry)
    (h : ∀ s ∈ spec, isWildcard s = false) : wildcardCount spec = 0 := by
  induction spec with
  | nil => rfl
  | cons s rest ih =>
      simp only [wildcardCount]
      rw [h s (List.mem_cons_self s rest), if_neg (by simp)]
      simp only [Nat.zero_add]
      exact ih (fun s' hs' => h s' (List.mem_cons_of_mem s hs'))

/-- A wildcard entry anywhere in the spec makes the wildcard count positive. -/
theorem wildcardCount_pos (spec : List SpecEntry) :
    ∀ k s, spec.get? k = some s → isWildcard s = true → 1 ≤ wildcardCount spec := by
  induction spec with
  | nil => intro k s hk; cases hk
  | cons s0 rest ih =>
      intro k s hk hw
      cases k with
      | zero =>
          simp only [List.get?_cons_zero, Option.some.injEq] at hk
          subst hk
          simp [wildcardCount, hw]
      | succ k' =>
          simp only [List.get?_cons_succ] at hk
          have := ih k' s hk hw
          simp only [wildcardCount]
          omega

/-! ### Lemmas about `applySames`, `samesProd` and products -/

/-- Positions below the start index are never written by `applySames`. -/
theorem applySames_getElem?_low (spec : List SpecEntry) :
    ∀ i j (ne : List Int), j < i → (applySames i spec ne)[j]? = ne[j]? := by
  induction spec with
  | nil => intro i j ne _; rfl
  | cons s rest ih =>
      intro i j ne h
      simp only [applySames]
      rw [ih (i + 1) j _ (by omega)]
      split
      · exact List.getElem?_set_ne (by omega)
      · rfl

/-- A position whose spec entry is not `DIM_SAME` keeps its initial value. -/
theorem applySames_getElem?_untouched (spec : List SpecEntry) :
    ∀ i m (ne : List Int), spec.get? m ≠ some SpecEntry.same →
      (applySames i spec ne)[i + m]? = ne[i + m]? := by
  induction spec with
  | nil => intro i m ne _; rfl
  | cons s rest ih =>
      intro i m ne h
      simp only [applySames]
      cases m with
      | zero =>
          have hs : ¬s = SpecEntry.same := by
            intro he; exact h (by simp [he])
          rw [if_neg hs]
          exact applySames_getElem?_low rest (i + 1) (i + 0) ne (by omega)
      | succ m' =>
          simp only [List.get?_cons_succ] at h
          have hrec := ih (i + 1) m' (if s = SpecEntry.same then ne.set i 1 else ne) h
          have harith : i + (m' + 1) = (i + 1) + m' := by omega
          rw [harith, hrec]
          split
          · exact List.getElem?_set_ne (by omega)
          · rfl

/-- The writes of `applySames` (all writing 1) preserve positivity of the
entries. -/
theorem applySames_pos (spec : List SpecEntry) :
    ∀ i (ne : List Int), (∀ x ∈ ne, 0 < x) →
      ∀ x ∈ applySames i spec ne, 0 < x := by
  induction spec with
  | nil => intro i ne h; exact h
  | cons s rest ih =>
      intro i ne h
      simp only [applySames]
      apply ih (i + 1)
      intro x hx
      split at hx
      · rcases List.mem_or_eq_of_mem_set hx with hmem | rfl
        · exact h x hmem
        · exact one_pos
      · exact h x hx

/-- Writing below the start index does not change `samesProd`. -/
theorem samesProd_set_low (spec : List SpecEntry) :
    ∀ i j (v : Int) (ne : List Int), j < i →
      samesProd (ne.set j v) i spec = samesProd ne i spec := by
  induction spec with
  | nil => intro i j v ne _; rfl
  | cons s rest ih =>
      intro i j v ne h
      simp only [samesProd]
      rw [ih (i + 1) j v ne (by omega)]
      congr 1
      split
      · rw [List.getD_eq_getElem?_getD, List.getD_eq_getElem?_getD,
            List.getElem?_set_ne (by omega)]
      · rfl

/-- Setting one position to 1 divides the product by the entry there. -/
theorem prod_set_one_mul_getD (ne : List Int) :
    ∀ i, (ne.set i 1).prod * ne.getD i 1 = ne.prod := by
  induction ne with
  | nil => intro i; simp
  | cons a l ih =>
      intro i
      cases i with
      | zero =>
          simp only [List.set_cons_zero, List.prod_cons, List.getD_cons_zero, one_mul]
          ring
      | succ i' =>
          simp only [List.set_cons_succ, List.prod_cons, List.getD_cons_succ]
          rw [mul_assoc, ih i']

/-- Fundamental product identity: the product of `numerator_elements` after
the loop, times the product of the copied entries' initial values, is the
product of all initial values. -/
theorem applySames_prod (spec : List SpecEntry) :
    ∀ i (ne : List Int),
      (applySames i spec ne).prod * samesProd ne i spec = ne.prod := by
  induction spec with
  | nil => intro i ne; simp [applySames, samesProd]
  | cons s rest ih =>
      intro i ne
      by_cases hs : s = SpecEntry.same
      · simp only [applySames, samesProd, if_pos hs]
        rw [← samesProd_set_low rest (i + 1) i 1 ne (by omega)]
        calc (applySames (i + 1) rest (ne.set i 1)).prod *
              (ne.getD i 1 * samesProd (ne.set i 1) (i + 1) rest)
            = ((applySames (i + 1) rest (ne.set i 1)).prod *
                samesProd (ne.set i 1) (i + 1) rest) * ne.getD i 1 := by ring
          _ = (ne.set i 1).prod * ne.getD i 1 := by rw [ih (i + 1) (ne.set i 1)]
          _ = ne.prod := prod_set_one_mul_getD ne i
      · simp only [applySames, samesProd, if_neg hs, one_mul]
        exact ih (i + 1) ne

/-! ### Lemmas about `resultOf` -/

/-- Unfolding of `resultOf` on a cons cell whose `DIM_SAME` (if any) is in
range: each spec entry contributes exactly one result element. -/
theorem resultOf_cons (oldShape : List (Option Nat)) (s0 : SpecEntry)
    (rest : List SpecEntry) (i : Nat) (h : s0 = SpecEntry.same → i < oldShape.length) :
    resultOf oldShape i (s0 :: rest) =
      resultEntry oldShape i s0 :: resultOf oldShape (i + 1) rest := by
  cases s0 with
  | same =>
      have hlt := h rfl
      have hget : oldShape.get? i = some oldShape[i] := by
        rw [List.get?_eq_getElem?]
        exact List.getElem?_eq_getElem hlt
      simp only [resultOf, resultEntry, hget]
      cases oldShape[i] <;> simp
  | rest => simp [resultOf, resultEntry]
  | noneE => simp [resultOf, resultEntry]
  | intE n => by_cases hn : n = -1 <;> simp [resultOf, resultEntry, hn]

/-- Position `k` of the accumulated result corresponds to position `k` of
the spec, provided every `DIM_SAME` is in range. -/
theorem resultOf_get? (oldShape : List (Option Nat)) (spec : List SpecEntry) :
    ∀ i, (∀ k, spec.get? k = some SpecEntry.same → i + k < oldShape.length) →
      ∀ k s, spec.get? k = some s →
        (resultOf oldShape i spec).get? k = some (resultEntry oldShape (i + k) s) := by
  induction spec with
  | nil => intro i _ k s hk; cases hk
  | cons s0 rest ih =>
      intro i hb k s hk
      rw [resultOf_cons oldShape s0 rest i (fun he => by
        have := hb 0 (by simp [he]); omega)]
      cases k with
      | zero =>
          simp only [List.get?_cons_zero, Option.some.injEq] at hk
          subst hk
          simp
      | succ k' =>
          simp only [List.get?_cons_succ] at hk
          have hb' : ∀ k, rest.get? k = some SpecEntry.same →
              (i + 1) + k < oldShape.length := by
            intro k hk'
            have := hb (k + 1) (by simpa using hk')
            omega
          have := ih (i + 1) hb' k' s hk
          simp only [List.get?_cons_succ]
          rw [this]
          congr 2
          omega

/-- The dimensions of a fully known shape, as integers. -/
def natsToInts (dims : List Nat) : List Int := dims.map Int.ofNat

/-- For a fully known input shape, the initial `numerator_elements` list is
just the list of dimensions. -/
theorem initNumeratorElements_map_some (dims : List Nat) :
    initNumeratorElements (dims.map some) = natsToInts dims := by
  induction dims with
  | nil => rfl
  | cons d l ih =>
      simp only [List.map_cons, initNumeratorElements, natsToInts] at ih ⊢
      rw [ih]
      rfl

/-- For a fully known input shape and a wildcard-free spec whose copy
markers are in range, the product of the result entries is the product of
the copied dimensions times the product of the explicit integer entries. -/
theorem resProd_resultOf (dims : List Nat) (spec : List SpecEntry) :
    ∀ i, (∀ s ∈ spec, isWildcard s = false) →
      (∀ k, spec.get? k = some SpecEntry.same → i + k < dims.length) →
      resProd (resultOf (dims.map some) i spec) =
        samesProd (natsToInts dims) i spec * denomOf spec := by
  induction spec with
  | nil => intro i _ _; simp [resultOf, samesProd, denomOf, resProd]
  | cons s rest ih =>
      intro i hw hb
      have hwrest : ∀ s ∈ rest, isWildcard s = false :=
        fun s' hs' => hw s' (List.mem_cons_of_mem s hs')
      have hbrest : ∀ k, rest.get? k = some SpecEntry.same →
          (i + 1) + k < dims.length := by
        intro k hk
        have := hb (k + 1) (by simpa using hk)
        omega
      have ihr := ih (i + 1) hwrest hbrest
      have hcons := resultOf_cons (dims.map some) s rest i (fun he => by
        have := hb 0 (by simp [he])
        simpa using (by omega : i < dims.length))
      rw [hcons]
      cases s with
      | same =>
          have hlt : i < dims.length := by
            have := hb 0 (by simp)
            omega
          have hget : (dims.map some).get? i = some (some dims[i]) := by
            rw [List.get?_eq_getElem?, List.getElem?_map, List.getElem?_eq_getElem hlt]
            rfl
          have hgetd : (natsToInts dims).getD i 1 = (dims[i] : Int) := by
            rw [natsToInts, List.getD_eq_getElem?_getD, List.getElem?_map,
                List.getElem?_eq_getElem hlt]
            rfl
          have hre : resultEntry (dims.map some) i SpecEntry.same =
              ResElem.num dims[i] := by
            have h' : dims[i]? = some dims[i] := List.getElem?_eq_getElem hlt
            simp [resultEntry, h']
          rw [hre]
          simp only [resProd, samesProd, denomOf]
          simp only [if_true]
          rw [hgetd, ihr]
          ring
      | rest => exact absurd (hw _ (List.mem_cons_self _ _)) (by simp [isWildcard])
      | noneE => exact absurd (hw _ (List.mem_cons_self _ _)) (by simp [isWildcard])
      | intE n =>
          have hn : ¬n = -1 := by
            have := hw _ (List.mem_cons_self _ _)
            simpa [isWildcard] using this
          have hre : resultEntry (dims.map some) i (SpecEntry.intE n) =
              ResElem.num n := by
            simp [resultEntry, hn]
          rw [hre]
          simp only [resProd, samesProd, denomOf]
          rw [if_neg (by simp : ¬SpecEntry.intE n = SpecEntry.same),
              if_neg hn, ihr]
          ring

/-! ### Claim theorems -/

/-- C6: resolving the input shape `[None, 3, 7]` against the spec
`[copy-marker, wildcard]` yields `[None, 21]`: the wildcard resolves to 21
and the first dimension remains the unknown copied dimension. -/
theorem c6_reshape_example :
    _infer_unknown_dims [none, some 3, some 7] [SpecEntry.same, SpecEntry.rest] =
      .ok [ResElem.same, ResElem.num 21] ∧
    reshapeNewShape [none, some 3, some 7] [SpecEntry.same, SpecEntry.rest] =
      .ok [none, some 21] :=
  ⟨rfl, rfl⟩

/-- C10: for every input layer and keep probability, `dropout` with a phase
other than `Phase.train` returns the input layer itself unchanged, and only
in the train phase is the dropout operation applied. -/
theorem c10_dropout_identity_off_train {Layer : Type}
    (tfDropout : Layer → Rat → Layer) (inputLayer : Layer) (keepProb : Rat)
    (phase : Phase) :
    (phase ≠ Phase.train →
      dropout tfDropout inputLayer keepProb phase = inputLayer) ∧
    (phase = Phase.train →
      dropout tfDropout inputLayer keepProb phase = tfDropout inputLayer keepProb) := by
  constructor
  · intro h
    simp [dropout, h]
  · intro h
    simp [dropout, h]

/-- Witness for C10 at a concrete layer type, input and phase. -/
theorem c10_witness :
    Phase.test ≠ Phase.train ∧
    dropout (fun (x : Nat) _ => x + 1) 5 ((1 : Rat) / 2) Phase.test = 5 :=
  ⟨by decide,
   (c10_dropout_identity_off_train (fun (x : Nat) _ => x + 1) 5 ((1 : Rat) / 2)
     Phase.test).1 (by decide)⟩

/-- Replacing one spec entry by another with an identical step function
does not change the loop. -/
theorem inferLoop_congr_entry (oldShape : List (Option Nat)) (s1 s2 : SpecEntry)
    (hstep : ∀ i st, inferStep oldShape i s1 st = inferStep oldShape i s2 st)
    (pre : List SpecEntry) :
    ∀ post i st, inferLoop oldShape i (pre ++ s1 :: post) st =
      inferLoop oldShape i (pre ++ s2 :: post) st := by
  induction pre with
  | nil =>
      intro post i st
      simp only [List.nil_append, inferLoop]
      rw [hstep i st]
  | cons p pre' ih =>
      intro post i st
      simp only [List.cons_append, inferLoop]
      cases inferStep oldShape i p st with
      | error e => rfl
      | ok st1 => exact ih post (i + 1) st1

/-- C9: a shape-spec entry equal to `DIM_REST`, `-1` or `None` is in every
case treated identically as the wildcard: the loop step appends `-1` to the
result and counts it toward the at-most-one-unknown limit for all three
forms, and the whole of `_infer_unknown_dims` (including the final
replacement of `-1` by the inferred remainder) cannot distinguish them. -/
theorem c9_wildcard_forms_equivalent :
    (∀ (oldShape : List (Option Nat)) (i : Nat) (st : InferState),
      inferStep oldShape i SpecEntry.rest st =
        .ok { st with result := st.result ++ [ResElem.num (-1)],
                      unknowns := st.unknowns + 1 } ∧
      inferStep oldShape i (SpecEntry.intE (-1)) st =
        inferStep oldShape i SpecEntry.rest st ∧
      inferStep oldShape i SpecEntry.noneE st =
        inferStep oldShape i SpecEntry.rest st) ∧
    (∀ (oldShape : List (Option Nat)) (pre post : List SpecEntry),
      _infer_unknown_dims oldShape (pre ++ SpecEntry.intE (-1) :: post) =
        _infer_unknown_dims oldShape (pre ++ SpecEntry.rest :: post) ∧
      _infer_unknown_dims oldShape (pre ++ SpecEntry.noneE :: post) =
        _infer_unknown_dims oldShape (pre ++ SpecEntry.rest :: post)) := by
  constructor
  · intro oldShape i st
    refine ⟨rfl, ?_, rfl⟩
    simp [inferStep]
  · intro oldShape pre post
    constructor
    · have hloop := inferLoop_congr_entry oldShape (SpecEntry.intE (-1))
        SpecEntry.rest (fun i st => by simp [inferStep]) pre post 0
        (initState oldShape)
      unfold _infer_unknown_dims
      rw [hloop]
    · have hloop := inferLoop_congr_entry oldShape SpecEntry.noneE
        SpecEntry.rest (fun i st => rfl) pre post 0 (initState oldShape)
      unfold _infer_unknown_dims
      rw [hloop]

/-- C5: a copy-marker at an index greater than or equal to the length of
the input shape makes `_infer_unknown_dims` raise a `ValueError`. -/
theorem c5_same_out_of_range (oldShape : List (Option Nat)) (spec : List SpecEntry)
    (k : Nat) (hk : spec.get? k = some SpecEntry.same)
    (hoob : oldShape.length ≤ k) :
    ∃ e, _infer_unknown_dims oldShape spec = .error e ∧ e.isValueError = true := by
  obtain ⟨e, he⟩ :=
    inferLoop_error_of_oob oldShape spec 0 k (initState oldShape) hk (by omega)
  obtain ⟨j, rfl⟩ := inferLoop_error_shape oldShape spec 0 (initState oldShape) e he
  exact ⟨.outOfRange j, infer_eq_error _ _ _ he, rfl⟩

/-- Witness for C5 at a concrete shape and spec. -/
theorem c5_witness :
    ∃ e, _infer_unknown_dims [] [SpecEntry.same] = .error e ∧
      e.isValueError = true :=
  c5_same_out_of_range [] [SpecEntry.same] 0 rfl (by decide)

/-- C3: a spec with two or more wildcard entries (any mix of `DIM_REST`,
`-1` or `None`) makes `_infer_unknown_dims` raise a `ValueError`, and a
spec with at most one wildcard entry is never rejected for its wildcard
count. -/
theorem c3_wildcard_limit (oldShape : List (Option Nat)) (spec : List SpecEntry) :
    (2 ≤ wildcardCount spec →
      ∃ e, _infer_unknown_dims oldShape spec = .error e ∧ e.isValueError = true) ∧
    (wildcardCount spec ≤ 1 →
      _infer_unknown_dims oldShape spec ≠ .error InferErr.tooManyUnknowns) := by
  constructor
  · intro h2
    cases hl : inferLoop oldShape 0 spec (initState oldShape) with
    | error e =>
        obtain ⟨j, rfl⟩ := inferLoop_error_shape _ _ _ _ _ hl
        exact ⟨_, infer_eq_error _ _ _ hl, rfl⟩
    | ok st =>
        have hu : st.unknowns = wildcardCount spec := by
          have := (inferLoop_ok_char oldShape spec 0 (initState oldShape) st hl).2.1
          simpa [initState] using this
        refine ⟨.tooManyUnknowns, ?_, rfl⟩
        rw [infer_eq_finish _ _ _ hl]
        simp only [inferFinish]
        rw [if_pos (by omega)]
  · intro h1
    cases hl : inferLoop oldShape 0 spec (initState oldShape) with
    | error e =>
        obtain ⟨j, rfl⟩ := inferLoop_error_shape _ _ _ _ _ hl
        rw [infer_eq_error _ _ _ hl]
        intro hcontra
        cases hcontra
    | ok st =>
        have hu : st.unknowns = wildcardCount spec := by
          have := (inferLoop_ok_char oldShape spec 0 (initState oldShape) st hl).2.1
          simpa [initState] using this
        rw [infer_eq_finish _ _ _ hl]
        simp only [inferFinish]
        rw [if_neg (by omega)]
        split_ifs <;> simp

/-- Witness for C3 at concrete shapes and specs: two wildcards of different
forms are rejected; a single wildcard is not rejected for its count. -/
theorem c3_witness :
    (∃ e, _infer_unknown_dims [] [SpecEntry.rest, SpecEntry.noneE] = .error e ∧
      e.isValueError = true) ∧
    _infer_unknown_dims [some 4] [SpecEntry.intE (-1), SpecEntry.same] ≠
      .error InferErr.tooManyUnknowns :=
  ⟨(c3_wildcard_limit [] [SpecEntry.rest, SpecEntry.noneE]).1 (by decide),
   (c3_wildcard_limit [some 4] [SpecEntry.intE (-1), SpecEntry.same]).2 (by decide)⟩

/-- C8: an unknown (`None`) or zero input dimension at a position not
copied by a `DIM_SAME` entry makes the numerator product 0, and then
`_infer_unknown_dims` never raises the size-mismatch error, whatever the
explicit integer entries are. -/
theorem c8_zero_numerator_no_mismatch (oldShape : List (Option Nat))
    (spec : List SpecEntry) (j : Nat)
    (hdim : oldShape.get? j = some none ∨ oldShape.get? j = some (some 0))
    (hnotsame : spec.get? j ≠ some SpecEntry.same) :
    numeratorOf oldShape spec = 0 ∧
    _infer_unknown_dims oldShape spec ≠ .error InferErr.sizeMismatch := by
  have hne0 : (initNumeratorElements oldShape)[j]? = some 0 := by
    rcases hdim with hd | hd <;>
      · rw [initNumeratorElements, List.getElem?_map, ← List.get?_eq_getElem?, hd]
        rfl
  have happ : (applySames 0 spec (initNumeratorElements oldShape))[j]? = some 0 := by
    have h0j : (0 : Nat) + j = j := by omega
    have := applySames_getElem?_untouched spec 0 j (initNumeratorElements oldShape)
      hnotsame
    rw [h0j] at this
    exact this.trans hne0
  have hmem : (0 : Int) ∈ applySames 0 spec (initNumeratorElements oldShape) := by
    obtain ⟨hlt, h0⟩ := List.getElem?_eq_some.mp happ
    rw [← h0]
    exact List.getElem_mem hlt
  have hnum : numeratorOf oldShape spec = 0 := by
    rw [numeratorOf]
    exact List.prod_eq_zero hmem
  refine ⟨hnum, ?_⟩
  cases hl : inferLoop oldShape 0 spec (initState oldShape) with
  | error e =>
      obtain ⟨j', rfl⟩ := inferLoop_error_shape _ _ _ _ _ hl
      rw [infer_eq_error _ _ _ hl]
      intro hcontra
      cases hcontra
  | ok st =>
      have hfold : st.numeratorElements.foldl (· * ·) 1 = 0 := by
        have hne := (inferLoop_ok_char oldShape spec 0 (initState oldShape) st hl).2.2.2
        rw [← List.prod_eq_foldl, hne]
        simpa [initState, numeratorOf] using hnum
      rw [infer_eq_finish _ _ _ hl]
      simp only [inferFinish]
      rw [hfold]
      split_ifs with h1 h2 h3 h4 h5
      · simp
      · simp
      · exact absurd (Int.zero_emod st.denominator) h3
      · exact absurd h4.2.1 (lt_irrefl 0)
      · simp
      · simp

/-- Witness for C8 at a concrete shape and spec: input `[None]` against the
spec `[7]` has numerator 0 and is accepted even though 7 matches nothing. -/
theorem c8_witness :
    numeratorOf [none] [SpecEntry.intE 7] = 0 ∧
    _infer_unknown_dims [none] [SpecEntry.intE 7] ≠ .error InferErr.sizeMismatch :=
  c8_zero_numerator_no_mismatch [none] [SpecEntry.intE 7] 0 (Or.inl rfl) (by decide)

/-- C4: when `_infer_unknown_dims` returns a list, a copy-marker at index
`k` whose input dimension is within range and known resolves to that input
dimension. -/
theorem c4_copy_marker_resolves (oldShape : List (Option Nat))
    (spec : List SpecEntry) (res : List ResElem) (k : Nat) (d : Nat)
    (hok : _infer_unknown_dims oldShape spec = .ok res)
    (hk : spec.get? k = some SpecEntry.same)
    (hd : oldShape.get? k = some (some d)) :
    res.get? k = some (ResElem.num d) := by
  cases hl : inferLoop oldShape 0 spec (initState oldShape) with
  | error e =>
      rw [infer_eq_error _ _ _ hl] at hok
      cases hok
  | ok st =>
      have hres : st.result = resultOf oldShape 0 spec := by
        have := (inferLoop_ok_char oldShape spec 0 (initState oldShape) st hl).2.2.1
        simpa [initState] using this
      have hb : ∀ k', spec.get? k' = some SpecEntry.same →
          0 + k' < oldShape.length := by
        intro k' hk'
        exact inferLoop_ok_inbounds oldShape spec 0 _ _ hl k' hk'
      have hentry : st.result.get? k = some (ResElem.num d) := by
        rw [hres]
        have := resultOf_get? oldShape spec 0 hb k SpecEntry.same hk
        rw [this]
        have hre : resultEntry oldShape (0 + k) SpecEntry.same = ResElem.num d := by
          have h0k : (0 : Nat) + k = k := by omega
          rw [h0k]
          simp only [resultEntry]
          rw [hd]
        rw [hre]
      rw [infer_eq_finish _ _ _ hl] at hok
      simp only [inferFinish] at hok
      split_ifs at hok with h1 h2 h3 h4 h5
      · obtain rfl : res = st.result.map
            (fun x => if x = ResElem.num (-1)
              then ResElem.num
                (st.numeratorElements.foldl (· * ·) 1 / st.denominator)
              else x) := by
          cases hok
          rfl
        rw [List.get?_map, hentry]
        have hne : ¬(ResElem.num (d : Int) = ResElem.num (-1)) := by
          simp only [ResElem.num.injEq]
          omega
        simp [hne]
      · obtain rfl : res = st.result := by
          cases hok
          rfl
        exact hentry

/-- Witness for C4 at a concrete shape, spec and index. -/
theorem c4_witness :
    ([ResElem.num 5] : List ResElem).get? 0 = some (ResElem.num 5) :=
  c4_copy_marker_resolves [some 5] [SpecEntry.same] [ResElem.num 5] 0 5 rfl rfl rfl

/-- The numerator as the spec sentence for C2 describes it (for comparison
with the code): the product of the input dimensions not marked for
copying, with 1 used in place of each unknown (`None`) input dimension. -/
def claimedNumerator (oldShape : List (Option Nat)) (spec : List SpecEntry) : Int :=
  (applySames 0 spec
    (oldShape.map (fun x => match x with | none => 1 | some d => (d : Int)))).prod

/-- Counterexample for C2: on input shape `[None, 3, 7]` and spec `[*]`,
the claim's numerator (1 in place of `None`) is 21 and the denominator 1,
so the claim predicts the wildcard resolves to 21; the code instead uses 0
for the unknown dimension and returns the wildcard unresolved as `-1`. -/
theorem c2_counterexample :
    claimedNumerator [none, some 3, some 7] [SpecEntry.rest] = 21 ∧
    denomOf [SpecEntry.rest] = 1 ∧
    _infer_unknown_dims [none, some 3, some 7] [SpecEntry.rest] =
      .ok [ResElem.num (-1)] ∧
    ResElem.num (-1) ≠ ResElem.num (21 / 1 : Int) :=
  ⟨rfl, rfl, rfl, by decide⟩

/-- C2 (amended): the numerator uses 1 in place of each copied dimension
and 0 in place of each unknown one, and the wildcard resolves to
numerator / denominator when the numerator is nonzero. -/
theorem c2_wildcard_resolution (oldShape : List (Option Nat))
    (spec : List SpecEntry) (res : List ResElem) (k : Nat) (s : SpecEntry)
    (hok : _infer_unknown_dims oldShape spec = .ok res)
    (hk : spec.get? k = some s) (hw : isWildcard s = true)
    (hnz : numeratorOf oldShape spec ≠ 0) :
    res.get? k = some (ResElem.num (numeratorOf oldShape spec / denomOf spec)) := by
  cases hl : inferLoop oldShape 0 spec (initState oldShape) with
  | error e =>
      rw [infer_eq_error _ _ _ hl] at hok
      cases hok
  | ok st =>
      obtain ⟨hden, hunk, hres, hne⟩ :=
        inferLoop_ok_char oldShape spec 0 (initState oldShape) st hl
      have hden' : st.denominator = denomOf spec := by
        simpa [initState] using hden
      have hunk' : st.unknowns = wildcardCount spec := by
        simpa [initState] using hunk
      have hres' : st.result = resultOf oldShape 0 spec := by
        simpa [initState] using hres
      have hne' : st.numeratorElements =
          applySames 0 spec (initNumeratorElements oldShape) := by
        simpa [initState] using hne
      have hfold : st.numeratorElements.foldl (· * ·) 1 =
          numeratorOf oldShape spec := by
        rw [← List.prod_eq_foldl, hne', numeratorOf]
      have hb : ∀ k', spec.get? k' = some SpecEntry.same →
          0 + k' < oldShape.length :=
        fun k' hk' => inferLoop_ok_inbounds oldShape spec 0 _ _ hl k' hk'
      have hcount : 1 ≤ wildcardCount spec := wildcardCount_pos spec k s hk hw
      have hentry : st.result.get? k = some (ResElem.num (-1)) := by
        rw [hres', resultOf_get? oldShape spec 0 hb k s hk]
        have hre : resultEntry oldShape (0 + k) s = ResElem.num (-1) := by
          cases s with
          | same => simp [isWildcard] at hw
          | rest => rfl
          | noneE => rfl
          | intE n =>
              have hn : n = -1 := by simpa [isWildcard] using hw
              simp [resultEntry, hn]
        rw [hre]
      rw [infer_eq_finish _ _ _ hl] at hok
      simp only [inferFinish] at hok
      split_ifs at hok with h1 h2 h3 h4 h5
      · obtain rfl : res = st.result.map
            (fun x => if x = ResElem.num (-1)
              then ResElem.num
                (st.numeratorElements.foldl (· * ·) 1 / st.denominator)
              else x) := by
          cases hok
          rfl
        rw [List.get?_map, hentry]
        simp [hfold, hden']
      · refine absurd ⟨?_, ?_⟩ h5
        · rw [hfold]
          exact hnz
        · omega

/-- Witness for C2 (amended) at a concrete shape and spec. -/
theorem c2_witness :
    ([ResElem.num 4] : List ResElem).get? 0 =
      some (ResElem.num (numeratorOf [some 4] [SpecEntry.rest] /
        denomOf [SpecEntry.rest])) :=
  c2_wildcard_resolution [some 4] [SpecEntry.rest] [ResElem.num 4] 0
    SpecEntry.rest rfl rfl rfl (by decide)

/-- Counterexample for C1: the known input shape `[0]` resolved against the
wildcard-free fully-specified spec `[5]` returns `[5]`, whose product 5 is
not the input product 0 (the zero numerator disables the size check). -/
theorem c1_counterexample :
    _infer_unknown_dims [some 0] [SpecEntry.intE 5] = .ok [ResElem.num 5] ∧
    resProd [ResElem.num 5] ≠ (natsToInts [0]).prod :=
  ⟨rfl, by decide⟩

/-- C1 (amended): for a fully known input shape with positive dimensions
and a wildcard-free fully-specified spec, the product of the resolved
dimensions returned by `_infer_unknown_dims` is the product of the input
dimensions. -/
theorem c1_product_preserved (dims : List Nat) (spec : List SpecEntry)
    (res : List ResElem)
    (hpos : ∀ d ∈ dims, 0 < d)
    (hspec : ∀ s ∈ spec, isWildcard s = false)
    (hok : _infer_unknown_dims (dims.map some) spec = .ok res) :
    resProd res = (natsToInts dims).prod := by
  cases hl : inferLoop (dims.map some) 0 spec (initState (dims.map some)) with
  | error e =>
      rw [infer_eq_error _ _ _ hl] at hok
      cases hok
  | ok st =>
      obtain ⟨hden, hunk, hres, hne⟩ :=
        inferLoop_ok_char (dims.map some) spec 0 (initState (dims.map some)) st hl
      have hden' : st.denominator = denomOf spec := by
        simpa [initState] using hden
      have hwc : wildcardCount spec = 0 := wildcardCount_eq_zero spec hspec
      have hunk' : st.unknowns = 0 := by
        simpa [initState, hwc] using hunk
      have hres' : st.result = resultOf (dims.map some) 0 spec := by
        simpa [initState] using hres
      have hne' : st.numeratorElements = applySames 0 spec (natsToInts dims) := by
        simpa [initState, initNumeratorElements_map_some] using hne
      have hposInt : ∀ x ∈ natsToInts dims, 0 < x := by
        intro x hx
        rw [natsToInts] at hx
        obtain ⟨d, hd, rfl⟩ := List.mem_map.mp hx
        exact Int.ofNat_pos.mpr (hpos d hd)
      have hnpos : 0 < st.numeratorElements.foldl (· * ·) 1 := by
        rw [← List.prod_eq_foldl, hne']
        exact List.prod_pos (applySames_pos spec 0 (natsToInts dims) hposInt)
      have hb : ∀ k, spec.get? k = some SpecEntry.same → 0 + k < dims.length := by
        intro k hk
        have := inferLoop_ok_inbounds (dims.map some) spec 0 _ _ hl k hk
        simpa using this
      rw [infer_eq_finish _ _ _ hl] at hok
      simp only [inferFinish] at hok
      split_ifs at hok with h1 h2 h3 h4 h5
      · exact absurd hunk' h5.2
      · obtain rfl : res = st.result := by
          cases hok
          rfl
        have heq : st.numeratorElements.foldl (· * ·) 1 = st.denominator := by
          by_contra hneq
          exact h4 ⟨hunk', hnpos, hneq⟩
        have hN : (applySames 0 spec (natsToInts dims)).prod = denomOf spec := by
          have hfold : st.numeratorElements.foldl (· * ·) 1 =
              (applySames 0 spec (natsToInts dims)).prod := by
            rw [← List.prod_eq_foldl, hne']
          rw [← hfold, heq, hden']
        rw [hres', resProd_resultOf dims spec 0 hspec hb]
        calc samesProd (natsToInts dims) 0 spec * denomOf spec
            = (applySames 0 spec (natsToInts dims)).prod *
                samesProd (natsToInts dims) 0 spec := by
              rw [hN]
              ring
          _ = (natsToInts dims).prod := applySames_prod spec 0 (natsToInts dims)

/-- Witness for C1 (amended) at a concrete shape and spec. -/
theorem c1_witness :
    resProd [ResElem.num 2, ResElem.num 3] = (natsToInts [2, 3]).prod :=
  c1_product_preserved [2, 3] [SpecEntry.same, SpecEntry.intE 3]
    [ResElem.num 2, ResElem.num 3] (by decide) (by decide) rfl

/-- C7: `split` and `unzip` perform the same validation on the input
shape: a `ValueError` exactly when `split_dim` is out of range or the
(known) dimension at `split_dim` is not evenly divisible by `num_splits`;
otherwise no validation error is raised and the operation proceeds. -/
theorem c7_split_validation (shape : List (Option Nat)) (splitDim numSplits : Nat)
    (hpos : 0 < numSplits) (hknown : ∀ x ∈ shape, x ≠ none) :
    ((∃ e, splitValidate shape splitDim numSplits = .error e ∧
        e.isValueError = true) ↔
      (shape.length ≤ splitDim ∨
        ∃ d, shape.get? splitDim = some (some d) ∧ d % numSplits ≠ 0)) ∧
    (splitValidate shape splitDim numSplits = .ok () ↔
      ¬(shape.length ≤ splitDim ∨
        ∃ d, shape.get? splitDim = some (some d) ∧ d % numSplits ≠ 0)) ∧
    unzipValidate shape splitDim numSplits =
      splitValidate shape splitDim numSplits := by
  by_cases hoob : shape.length ≤ splitDim
  · have hval : splitValidate shape splitDim numSplits =
        .error .splitDimOutOfBounds := by
      unfold splitValidate _check_split_dims
      rw [if_pos hoob]
    refine ⟨⟨fun _ => Or.inl hoob, fun _ => ⟨.splitDimOutOfBounds, hval, rfl⟩⟩,
      ⟨fun h => ?_, fun hn => absurd (Or.inl hoob) hn⟩, rfl⟩
    rw [hval] at h
    cases h
  · have hlt : splitDim < shape.length := by omega
    obtain ⟨d, hget⟩ : ∃ d, shape.get? splitDim = some (some d) := by
      have hsome : shape.get? splitDim = some (shape.get ⟨splitDim, hlt⟩) :=
        List.get?_eq_get hlt
      cases hg : shape.get ⟨splitDim, hlt⟩ with
      | none =>
          have := hknown _ (List.get_mem shape splitDim hlt)
          exact absurd hg this
      | some d => exact ⟨d, by rw [hsome, hg]⟩
    have hmatch : ∀ d', shape.get? splitDim = some (some d') → d' = d := by
      intro d' h'
      rw [hget] at h'
      injection h' with h'
      injection h' with h'
      omega
    by_cases hdiv : d % numSplits = 0
    · have hval : splitValidate shape splitDim numSplits = .ok () := by
        unfold splitValidate _check_split_dims
        rw [if_neg (by omega)]
        rw [hget]
        have hn0 : ¬numSplits = 0 := by omega
        simp [hn0, hdiv]
      have hnone : ¬(shape.length ≤ splitDim ∨
          ∃ d', shape.get? splitDim = some (some d') ∧ d' % numSplits ≠ 0) := by
        rintro (h | ⟨d', hd', hnd⟩)
        · omega
        · exact hnd (by rw [hmatch d' hd']; exact hdiv)
      refine ⟨⟨fun ⟨e, he, _⟩ => ?_, fun h => absurd h hnone⟩,
        ⟨fun _ => hnone, fun _ => hval⟩, rfl⟩
      rw [hval] at he
      cases he
    · have hval : splitValidate shape splitDim numSplits =
          .error .notEvenlyDivisible := by
        unfold splitValidate _check_split_dims
        rw [if_neg (by omega)]
        rw [hget]
        have hn0 : ¬numSplits = 0 := by omega
        simp [hn0, hdiv]
      refine ⟨⟨fun _ => Or.inr ⟨d, hget, hdiv⟩,
        fun _ => ⟨.notEvenlyDivisible, hval, rfl⟩⟩,
        ⟨fun h => ?_, fun hn => absurd (Or.inr ⟨d, hget, hdiv⟩) hn⟩, rfl⟩
      rw [hval] at h
      cases h

/-- Witness for C7 at a concrete shape, split dimension and split count. -/
theorem c7_witness :
    ((∃ e, splitValidate [some 4] 0 2 = .error e ∧ e.isValueError = true) ↔
      (([some 4] : List (Option Nat)).length ≤ 0 ∨
        ∃ d, ([some 4] : List (Option Nat)).get? 0 = some (some d) ∧ d % 2 ≠ 0)) ∧
    (splitValidate [some 4] 0 2 = .ok () ↔
      ¬(([some 4] : List (Option Nat)).length ≤ 0 ∨
        ∃ d, ([some 4] : List (Option Nat)).get? 0 = some (some d) ∧ d % 2 ≠ 0)) ∧
    unzipValidate [some 4] 0 2 = splitValidate [some 4] 0 2 :=
  c7_split_validation [some 4] 0 2 (by decide) (by decide)
